import Mathlib

/-!
# Verification of the `dash-file-cache` cache core

A shallow embedding, in Lean 4, of the cache core of the `dash-file-cache`
Python package, together with theorems settling the specified properties.

Embedded components and their sources:

* `LRUDict` and its operations — `dash_file_cache/caches/lrudict.py`.
  The deque of ordered keys (`__curkeys`, most recent first) is a `List K`,
  the backing `dict` (`__storage`) is an association list.  The Python
  `collections.deque` primitives `rotate`, `index` and `remove` are embedded
  as `pyRotate`, `pyIndex` and `pyRemove`.
* `CachePlain` / `CacheQueue` — `dash_file_cache/caches/memory.py`.
  Exceptions are `Option`/`Except` results; the ambient
  `utilities.is_in_main_process()` test becomes an explicit boolean argument.
* `CacheFile.__init__`'s argument validation — `dash_file_cache/caches/tempfile.py`.
* `ServiceData.stream`'s cache-facing behaviour — `dash_file_cache/services/data.py`,
  with the scoped `StreamFinalizer` consumption from `dash_file_cache/utilities.py`
  run to completion.
* `DeferredRequestStream.__update_info` — `dash_file_cache/services/reqstream.py`.
-/

namespace DashCache

/-! ### Association-list model of a Python `dict`

`storeLookup`, `storeSet`, `storeDel` model `d[k]`, `d[k] = v` and `del d[k]`
on a Python `dict` whose keys are unique.  `storeSet` replaces the value in
place when the key exists and appends the pair otherwise (insertion order);
`storeDel` removes the (unique) matching pair. -/

def storeLookup {K V : Type} [DecidableEq K] (key : K) : List (K × V) → Option V
  | [] => none
  | (k, v) :: rest => if k = key then some v else storeLookup key rest

def storeSet {K V : Type} [DecidableEq K] (key : K) (val : V) :
    List (K × V) → List (K × V)
  | [] => [(key, val)]
  | (k, v) :: rest =>
      if k = key then (k, val) :: rest else (k, v) :: storeSet key val rest

def storeDel {K V : Type} [DecidableEq K] (key : K) : List (K × V) → List (K × V)
  | [] => []
  | (k, v) :: rest => if k = key then rest else (k, v) :: storeDel key rest

/-! ### Python `collections.deque` primitives -/

/-- `deque.rotate(n)`: rotate `n` steps to the right; negative `n` rotates to
the left.  On a list of length `m ≠ 0` this brings the last `(n mod m)`
elements to the front. -/
def pyRotate {α : Type} (l : List α) (n : Int) : List α :=
  if l.length = 0 then l
  else
    l.drop (l.length - (n % (l.length : Int)).toNat) ++
      l.take (l.length - (n % (l.length : Int)).toNat)

/-- `deque.index(key)`: index of the first occurrence.  (Python raises
`ValueError` when the key is absent; every use below is guarded by a
membership test, and the out-of-range result `l.length` is returned
instead.) -/
def pyIndex {K : Type} [DecidableEq K] (key : K) : List K → Nat
  | [] => 0
  | k :: rest => if k = key then 0 else pyIndex key rest + 1

/-- `deque.remove(key)`: remove the first occurrence (guarded uses only). -/
def pyRemove {K : Type} [DecidableEq K] (key : K) : List K → List K
  | [] => []
  | k :: rest => if k = key then rest else k :: pyRemove key rest

/-! ### `LRUDict` (caches/lrudict.py)

State of an `LRUDict`: `curkeys` is the deque `__curkeys` (head = index 0 =
most recent key), `storage` the backing `dict`, `maxsize` the fixed capacity.
-/

structure LRUDict (K V : Type) where
  maxsize : Nat
  curkeys : List K
  storage : List (K × V)
deriving DecidableEq

variable {K V : Type} [DecidableEq K]

/-- `LRUDict.__init__(self, *args, maxsize=...)`, lines 146-175: validates
`maxsize`, builds the ordered storage, keeps the last `maxsize` keys
(`deque(keys, maxlen=maxsize)` retains the trailing elements), reverses them
so that the head is the most recent, and rebuilds the storage restricted to
the retained keys.  `none` models the `ValueError` raised for
`maxsize <= 0`.  The initial `data` is assumed to carry pairwise-distinct
keys (for such data `collections.OrderedDict(data)` is `data` itself). -/
def LRUDict.init? (maxsize : Int) (data : List (K × V)) : Option (LRUDict K V) :=
  if maxsize ≤ 0 then none
  else
    let m := maxsize.toNat
    let keys := data.map Prod.fst
    let curkeys := (keys.drop (keys.length - m)).reverse
    some
      { maxsize := m
        curkeys := curkeys
        storage := curkeys.filterMap fun k => (storeLookup k data).map fun v => (k, v) }

/-- The first rotation offset chosen by `move_to_recent` (line 196):
`idx = -idx if (idx < cur_len // 2) else cur_len - idx`. -/
def mtrOffset (idx curLen : Nat) : Int :=
  if idx < curLen / 2 then -(idx : Int) else (curLen : Int) - idx

/-- The second offset of `move_to_recent` (line 199):
`idx = idx - 1 if idx > 0 else idx + 1`. -/
def mtrOffset2 (i : Int) : Int :=
  if 0 < i then i - 1 else i + 1

/-- `LRUDict.move_to_recent`, lines 189-201: locate the key, pick a rotation
direction (`-idx` when the key sits in the recent half, `cur_len - idx`
otherwise), rotate the deque, pop the key from the left
(`key_ = popleft()`), undo the remaining rotation (`rotate(-idx)` with the
adjusted offset), and push the key back at the left (`appendleft(key_)`). -/
def LRUDict.move_to_recent (d : LRUDict K V) (key : K) : LRUDict K V :=
  if pyIndex key d.curkeys = 0 then d
  else
    match pyRotate d.curkeys (mtrOffset (pyIndex key d.curkeys) d.curkeys.length) with
    | [] => d
    | key_ :: rest =>
      { d with
        curkeys := key_ ::
          pyRotate rest
            (-(mtrOffset2 (mtrOffset (pyIndex key d.curkeys) d.curkeys.length))) }

/-- `LRUDict.__contains__`, lines 241-244: membership test on the backing
storage only (a pure read; the state is untouched). -/
def LRUDict.contains (d : LRUDict K V) (key : K) : Bool :=
  (storeLookup key d.storage).isSome

/-- `LRUDict.__getitem__`, lines 251-255: read the value, then move the key
to the most-recent position.  `none` models the `KeyError` on a missing key
(raised before any state change). -/
def LRUDict.getitem (d : LRUDict K V) (key : K) : Option (V × LRUDict K V) :=
  match storeLookup key d.storage with
  | none => none
  | some v => some (v, d.move_to_recent key)

/-- `LRUDict.__setitem__`, lines 257-270: replace-and-touch when the key
exists; otherwise evict the right end (`pop()`) when full, and push the new
key at the left. -/
def LRUDict.setitem (d : LRUDict K V) (key : K) (val : V) : LRUDict K V :=
  if d.contains key then
    let d1 := d.move_to_recent key
    { d1 with storage := storeSet key val d1.storage }
  else if d.maxsize ≤ d.curkeys.length then
    match d.curkeys.getLast? with
    | some old_key =>
        { d with
          curkeys := key :: d.curkeys.dropLast
          storage := storeSet key val (storeDel old_key d.storage) }
    | none => { d with curkeys := [key], storage := storeSet key val d.storage }
  else
    { d with curkeys := key :: d.curkeys, storage := storeSet key val d.storage }

/-- `LRUDict.__delitem__`, lines 272-280: `none` models the `KeyError` on a
missing key. -/
def LRUDict.delitem (d : LRUDict K V) (key : K) : Option (LRUDict K V) :=
  if d.contains key then
    some { d with curkeys := pyRemove key d.curkeys, storage := storeDel key d.storage }
  else none

/-- `LRUDict.recent`, lines 432-436 (`IndexError` on empty becomes `none`). -/
def LRUDict.recent? (d : LRUDict K V) : Option K :=
  d.curkeys.head?

/-- `LRUDict.eldest`, lines 438-443 (`IndexError` on empty becomes `none`). -/
def LRUDict.eldest? (d : LRUDict K V) : Option K :=
  d.curkeys.getLast?

/-- A fresh `LRUDict` produced by a run of distinct-key `__setitem__` calls:
`foldl` of `setitem` (used to state sequence properties). -/
def LRUDict.setAll (d : LRUDict K V) (ops : List (K × V)) : LRUDict K V :=
  ops.foldl (fun acc p => acc.setitem p.1 p.2) d

/-- A concrete `LRUDict` state with recency order `0, 1, 2, 3` (`0` most
recent): the shape reached after inserting keys `3, 2, 1, 0` in this order
into an empty dict of capacity `10`. -/
def lruC1 : LRUDict Nat Nat :=
  { maxsize := 10, curkeys := [0, 1, 2, 3],
    storage := [(0, 100), (1, 101), (2, 102), (3, 103)] }

/-- C1.  `get(1)` on the recency order `[0, 1, 2, 3]` exercises the
left-rotation branch of `move_to_recent` (`idx = 1 < 4 / 2 = 2`).  The
resulting order is `[1, 2, 3, 0]`: the key `1` does become most recent, but
the previously most-recent key `0` is sent to the least-recent end instead
of keeping its place, so the result differs from the claimed
`1 :: ([0, 1, 2, 3] with 1 deleted) = [1, 0, 2, 3]`. -/
theorem claim_C1_left_rotation_scrambles_order :
    (lruC1.getitem 1).map (fun p => p.2.curkeys) = some [1, 2, 3, 0] ∧
      some [1, 2, 3, 0] ≠ some (1 :: (lruC1.curkeys.erase 1)) := by
  decide

/-! ### Lemmas on the store operations -/

theorem storeLookup_storeSet_self (key : K) (val : V) (s : List (K × V)) :
    storeLookup key (storeSet key val s) = some val := by
  induction s with
  | nil => simp [storeSet, storeLookup]
  | cons p rest ih =>
    obtain ⟨k, v⟩ := p
    by_cases hk : k = key
    · simp [storeSet, storeLookup, hk]
    · simp [storeSet, storeLookup, hk, ih]

theorem storeLookup_eq_none_of_not_mem {key : K} {s : List (K × V)}
    (h : key ∉ s.map Prod.fst) : storeLookup key s = none := by
  induction s with
  | nil => rfl
  | cons p rest ih =>
    obtain ⟨k, v⟩ := p
    simp only [List.map_cons, List.mem_cons] at h
    push_neg at h
    have hne : ¬ k = key := fun hk => h.1 hk.symm
    simp [storeLookup, hne, ih h.2]

theorem storeLookup_isSome_iff_mem {key : K} {s : List (K × V)} :
    (storeLookup key s).isSome = true ↔ key ∈ s.map Prod.fst := by
  induction s with
  | nil => simp [storeLookup]
  | cons p rest ih =>
    obtain ⟨k, v⟩ := p
    by_cases hk : k = key
    · simp [storeLookup, hk]
    · rw [show storeLookup key ((k, v) :: rest) = storeLookup key rest by
        simp [storeLookup, hk], ih]
      constructor
      · exact fun hm => List.mem_cons_of_mem _ hm
      · intro hm
        rcases List.mem_cons.mp hm with h1 | h1
        · exact absurd h1.symm hk
        · exact h1

theorem storeSet_eq_append_of_not_mem {key : K} {s : List (K × V)}
    (h : key ∉ s.map Prod.fst) (val : V) : storeSet key val s = s ++ [(key, val)] := by
  induction s with
  | nil => rfl
  | cons p rest ih =>
    obtain ⟨k, v⟩ := p
    simp only [List.map_cons, List.mem_cons] at h
    push_neg at h
    have hne : ¬ k = key := fun hk => h.1 hk.symm
    simp [storeSet, hne, ih h.2]

theorem storeLookup_of_mem_of_nodup {k : K} {v : V} {s : List (K × V)}
    (hnd : (s.map Prod.fst).Nodup) (hm : (k, v) ∈ s) : storeLookup k s = some v := by
  induction s with
  | nil => cases hm
  | cons p rest ih =>
    obtain ⟨k0, v0⟩ := p
    simp only [List.map_cons, List.nodup_cons] at hnd
    rcases List.mem_cons.mp hm with heq | hmem
    · obtain ⟨rfl, rfl⟩ := Prod.mk.injEq .. ▸ heq
      simp [storeLookup]
    · have hne : k0 ≠ k := by
        rintro rfl
        exact hnd.1 (List.mem_map.mpr ⟨(k0, v), hmem, rfl⟩)
      simp [storeLookup, hne, ih hnd.2 hmem]

theorem storeLookup_storeDel_self_of_nodup {key : K} {s : List (K × V)}
    (hnd : (s.map Prod.fst).Nodup) : storeLookup key (storeDel key s) = none := by
  induction s with
  | nil => rfl
  | cons p rest ih =>
    obtain ⟨k, v⟩ := p
    simp only [List.map_cons, List.nodup_cons] at hnd
    by_cases hk : k = key
    · subst hk
      simp only [storeDel, if_pos rfl]
      exact storeLookup_eq_none_of_not_mem hnd.1
    · simp [storeDel, storeLookup, hk, ih hnd.2]

/-! ### Lemmas on the deque primitives -/

theorem pyIndex_lt_length {key : K} {l : List K} (h : key ∈ l) :
    pyIndex key l < l.length := by
  induction l with
  | nil => cases h
  | cons a t ih =>
    rw [pyIndex]
    by_cases ha : a = key
    · simp [ha]
    · have ht : key ∈ t := by
        rcases List.mem_cons.mp h with h1 | h1
        · exact absurd h1.symm ha
        · exact h1
      simp [ha, Nat.succ_lt_succ (ih ht)]

theorem getElem?_pyIndex {key : K} {l : List K} (h : key ∈ l) :
    l[pyIndex key l]? = some key := by
  induction l with
  | nil => cases h
  | cons a t ih =>
    rw [pyIndex]
    by_cases ha : a = key
    · simp [ha]
    · have ht : key ∈ t := by
        rcases List.mem_cons.mp h with h1 | h1
        · exact absurd h1.symm ha
        · exact h1
      simp [ha, ih ht]

theorem pyRotate_neg_of_lt {α : Type} (l : List α) (idx : Nat) (h0 : 0 < idx)
    (h : idx < l.length) : pyRotate l (-(idx : Int)) = l.drop idx ++ l.take idx := by
  have hl : ¬ l.length = 0 := by omega
  have hmod : (-(idx : Int)) % (l.length : Int) = (l.length : Int) - idx := by
    have h1 : (-(idx : Int) + (l.length : Int)) % (l.length : Int)
        = (-(idx : Int)) % (l.length : Int) := Int.add_emod_self
    rw [← h1]
    have h2 : -(idx : Int) + (l.length : Int) = (l.length : Int) - idx := by ring
    rw [h2]
    exact Int.emod_eq_of_lt (by omega) (by omega)
  have h3 : ((l.length : Int) - (idx : Int)).toNat = l.length - idx := by omega
  have h4 : l.length - (l.length - idx) = idx := by omega
  rw [pyRotate, if_neg hl, hmod, h3, h4]

theorem pyRotate_sub_of_lt {α : Type} (l : List α) (idx : Nat) (h0 : 0 < idx)
    (h : idx < l.length) :
    pyRotate l ((l.length : Int) - idx) = l.drop idx ++ l.take idx := by
  have hl : ¬ l.length = 0 := by omega
  have hmod : ((l.length : Int) - idx) % (l.length : Int) = (l.length : Int) - idx :=
    Int.emod_eq_of_lt (by omega) (by omega)
  have h3 : ((l.length : Int) - (idx : Int)).toNat = l.length - idx := by omega
  have h4 : l.length - (l.length - idx) = idx := by omega
  rw [pyRotate, if_neg hl, hmod, h3, h4]

/-- Both branches of the first rotation of `move_to_recent` bring the element
at position `idx` to the front of the deque. -/
theorem pyRotate_mtrOffset {l : List K} {key : K} (h : key ∈ l)
    (h0 : pyIndex key l ≠ 0) :
    pyRotate l (mtrOffset (pyIndex key l) l.length)
      = l.drop (pyIndex key l) ++ l.take (pyIndex key l) := by
  have hlt := pyIndex_lt_length h
  have hpos : 0 < pyIndex key l := Nat.pos_of_ne_zero h0
  rw [mtrOffset]
  split
  · exact pyRotate_neg_of_lt l _ hpos hlt
  · exact pyRotate_sub_of_lt l _ hpos hlt

theorem head?_drop_append_take {α : Type} {l : List α} {idx : Nat}
    (h : idx < l.length) : (l.drop idx ++ l.take idx).head? = l[idx]? := by
  rw [List.drop_eq_getElem_cons h]
  simp [List.getElem?_eq_getElem h]

/-- `move_to_recent` always succeeds in making the requested key the most
recent one (in both rotation branches), whenever the key is live. -/
theorem head?_move_to_recent (d : LRUDict K V) (key : K) (h : key ∈ d.curkeys) :
    (d.move_to_recent key).curkeys.head? = some key := by
  by_cases h0 : pyIndex key d.curkeys = 0
  · have hget := getElem?_pyIndex h
    rw [h0] at hget
    rw [LRUDict.move_to_recent, if_pos h0, ← List.head?_eq_getElem?] at *
    exact hget
  · have hhead : (d.curkeys.drop (pyIndex key d.curkeys)
        ++ d.curkeys.take (pyIndex key d.curkeys)).head? = some key := by
      rw [head?_drop_append_take (pyIndex_lt_length h), getElem?_pyIndex h]
    obtain ⟨t, ht⟩ : ∃ t, d.curkeys.drop (pyIndex key d.curkeys)
        ++ d.curkeys.take (pyIndex key d.curkeys) = key :: t := by
      cases hc : d.curkeys.drop (pyIndex key d.curkeys)
          ++ d.curkeys.take (pyIndex key d.curkeys) with
      | nil => rw [hc] at hhead; cases hhead
      | cons a t =>
        rw [hc] at hhead
        simp only [List.head?_cons, Option.some.injEq] at hhead
        exact ⟨t, by rw [hhead]⟩
    rw [LRUDict.move_to_recent, if_neg h0, pyRotate_mtrOffset h h0, ht]
    rfl

/-- `move_to_recent` never touches the backing storage. -/
theorem storage_move_to_recent (d : LRUDict K V) (key : K) :
    (d.move_to_recent key).storage = d.storage := by
  rw [LRUDict.move_to_recent]
  split
  · rfl
  · split <;> rfl

/-- `move_to_recent` never touches the capacity. -/
theorem maxsize_move_to_recent (d : LRUDict K V) (key : K) :
    (d.move_to_recent key).maxsize = d.maxsize := by
  rw [LRUDict.move_to_recent]
  split
  · rfl
  · split <;> rfl

/-! ### The `LRUDict` operation language (for the frame/effect claims) -/

/-- One public access to the `LRUDict`, as interleaved by a caller:
`get k` (`__getitem__`), `set k v` (`__setitem__`), or `contains k`
(`__contains__`). -/
inductive LRUOp (K V : Type) where
  | get (key : K)
  | set (key : K) (val : V)
  | contains (key : K)

def LRUOp.isContains {K V : Type} : LRUOp K V → Bool
  | .contains _ => true
  | _ => false

/-- The state reached after one operation.  `__contains__` (lines 241-244)
only reads the storage under the lock, so the state is returned unchanged;
`__getitem__` on a missing key raises `KeyError` before any mutation, so the
state is also unchanged in that case. -/
def LRUDict.step (d : LRUDict K V) : LRUOp K V → LRUDict K V
  | .get k =>
    match d.getitem k with
    | none => d
    | some (_, d1) => d1
  | .set k v => d.setitem k v
  | .contains _ => d

/-- C6.  `contains` is a pure read: the entire state (hence also the
most-recent key) is identical before and after; `get` on a live key always
makes that key the most-recent one; and over any interleaving, a block of
`contains` operations never changes the state, so `mostRecent()` can only
change across `get`/`set` steps. -/
theorem claim_C6_contains_pure_get_touches (d : LRUDict K V) (k : K)
    (hk : k ∈ d.curkeys) (hs : (storeLookup k d.storage).isSome = true) :
    (∀ key : K, d.step (.contains key) = d) ∧
    (d.step (.get k)).recent? = some k ∧
    (∀ ops : List (LRUOp K V), (∀ op ∈ ops, op.isContains = true) →
      List.foldl LRUDict.step d ops = d) := by
  refine ⟨fun _ => rfl, ?_, ?_⟩
  · obtain ⟨v, hv⟩ := Option.isSome_iff_exists.mp hs
    simp only [LRUDict.step, LRUDict.getitem, hv, LRUDict.recent?]
    exact head?_move_to_recent d k hk
  · intro ops hall
    induction ops with
    | nil => rfl
    | cons o t ih =>
      have ho := hall o (List.mem_cons_self o t)
      cases o with
      | get _ => cases ho
      | set _ _ => cases ho
      | contains key =>
        rw [List.foldl_cons]
        exact ih fun op hop => hall op (List.mem_cons_of_mem _ hop)

/-- A small concrete `LRUDict` used to witness C6. -/
def lruC6 : LRUDict Nat Nat :=
  { maxsize := 10, curkeys := [5, 6], storage := [(5, 1), (6, 2)] }

theorem claim_C6_witness : (lruC6.step (.get 6)).recent? = some 6 :=
  (claim_C6_contains_pure_get_touches lruC6 6 (by decide) (by decide)).2.1

/-! ### C3: the eviction discipline on distinct-key insert sequences -/

theorem setAll_append (d : LRUDict K V) (l l2 : List (K × V)) :
    d.setAll (l ++ l2) = (d.setAll l).setAll l2 :=
  List.foldl_append ..

theorem dropLast_reverse_eq {α : Type} (l : List α) :
    l.reverse.dropLast = l.tail.reverse := by
  cases l with
  | nil => rfl
  | cons a t => simp

/-- `__setitem__` on a key that is not in the storage: the `key in self`
test fails, so either the eviction branch or the plain insertion branch
runs. -/
theorem setitem_fresh (d : LRUDict K V) {key : K} (val : V)
    (h : storeLookup key d.storage = none) :
    d.setitem key val =
      if d.maxsize ≤ d.curkeys.length then
        match d.curkeys.getLast? with
        | some old_key =>
            { d with
              curkeys := key :: d.curkeys.dropLast
              storage := storeSet key val (storeDel old_key d.storage) }
        | none => { d with curkeys := [key], storage := storeSet key val d.storage }
      else { d with curkeys := key :: d.curkeys, storage := storeSet key val d.storage } := by
  rw [LRUDict.setitem]
  simp [LRUDict.contains, h]

/-- Closed form for a run of distinct-key inserts into a fresh `LRUDict`:
the behaviour is first-in-first-out, the retained entries are exactly the
trailing `C` inserts, the key order is their reverse. -/
theorem setAll_fresh_closed (C : Nat) (hC : 1 ≤ C) (ops : List (K × V))
    (hnd : (ops.map Prod.fst).Nodup) :
    LRUDict.setAll ⟨C, [], []⟩ ops =
      ⟨C, ((ops.map Prod.fst).drop (ops.length - C)).reverse,
        ops.drop (ops.length - C)⟩ := by
  induction ops using List.reverseRecOn with
  | nil => simp [LRUDict.setAll]
  | append_singleton l p ih =>
    rw [List.map_append] at hnd
    rcases List.nodup_append.mp hnd with ⟨hnd_l, _, hdisj⟩
    have hp : p.1 ∉ l.map Prod.fst := fun hm => hdisj hm (by simp)
    rw [setAll_append, ih hnd_l]
    have hkeyslen : (l.map Prod.fst).length = l.length := List.length_map ..
    have hfresh :
        storeLookup p.1
          ((⟨C, ((l.map Prod.fst).drop (l.length - C)).reverse,
              l.drop (l.length - C)⟩ : LRUDict K V).storage) = none := by
      apply storeLookup_eq_none_of_not_mem
      rw [List.map_drop]
      exact fun hm => hp (List.mem_of_mem_drop hm)
    rw [LRUDict.setAll, List.foldl_cons, List.foldl_nil, setitem_fresh _ p.2 hfresh]
    by_cases hcle : C ≤ l.length
    · -- the dict is full: the eviction branch runs
      have hcond :
          (⟨C, ((l.map Prod.fst).drop (l.length - C)).reverse,
            l.drop (l.length - C)⟩ : LRUDict K V).maxsize ≤
          (⟨C, ((l.map Prod.fst).drop (l.length - C)).reverse,
            l.drop (l.length - C)⟩ : LRUDict K V).curkeys.length := by
        simp only [List.length_reverse, List.length_drop, hkeyslen]
        omega
      rw [if_pos hcond]
      -- the storage after `l`, exposed as its head entry and tail
      obtain ⟨q, qs, hS⟩ : ∃ q qs, l.drop (l.length - C) = q :: qs := by
        cases hd : l.drop (l.length - C) with
        | nil =>
          have := List.drop_eq_nil_iff.mp hd
          omega
        | cons q qs => exact ⟨q, qs, rfl⟩
      have hkeysdrop : (l.map Prod.fst).drop (l.length - C) = q.1 :: qs.map Prod.fst := by
        rw [← List.map_drop, hS, List.map_cons]
      have hqs : qs = l.drop (l.length - C + 1) := by
        have h5 := List.tail_drop l (l.length - C)
        rw [hS] at h5
        exact h5
      have hlast :
          ((⟨C, ((l.map Prod.fst).drop (l.length - C)).reverse,
            l.drop (l.length - C)⟩ : LRUDict K V).curkeys).getLast? = some q.1 := by
        show (((l.map Prod.fst).drop (l.length - C)).reverse).getLast? = some q.1
        rw [List.getLast?_reverse, hkeysdrop, List.head?_cons]
      rw [hlast]
      have hdel : storeDel q.1 (l.drop (l.length - C)) = qs := by
        rw [hS, storeDel, if_pos rfl]
      have hset : storeSet p.1 p.2 qs = qs ++ [p] := by
        have hp2 : p.1 ∉ qs.map Prod.fst := by
          intro hm
          apply hp
          have : p.1 ∈ q.1 :: qs.map Prod.fst := List.mem_cons_of_mem _ hm
          rw [← hkeysdrop] at this
          exact List.mem_of_mem_drop this
        rw [storeSet_eq_append_of_not_mem hp2]
      have hdropLast :
          (((l.map Prod.fst).drop (l.length - C)).reverse).dropLast
            = ((l.map Prod.fst).drop (l.length - C + 1)).reverse := by
        rw [dropLast_reverse_eq, List.tail_drop]
      show (⟨C, p.1 :: (((l.map Prod.fst).drop (l.length - C)).reverse).dropLast,
          storeSet p.1 p.2 (storeDel q.1 (l.drop (l.length - C)))⟩ : LRUDict K V) = _
      rw [hdel, hset, hdropLast, hqs]
      have harith : l.length + 1 - C = l.length - C + 1 := by omega
      have hlen2 : (l ++ [p]).length = l.length + 1 := by simp
      have hckeys : ((l ++ [p]).map Prod.fst).drop ((l ++ [p]).length - C)
          = (l.map Prod.fst).drop (l.length - C + 1) ++ [p.1] := by
        rw [List.map_append, hlen2, harith,
          List.drop_append_of_le_length (by omega)]
        rfl
      have hcstore : (l ++ [p]).drop ((l ++ [p]).length - C)
          = l.drop (l.length - C + 1) ++ [p] := by
        rw [hlen2, harith, List.drop_append_of_le_length (by omega)]
      rw [hckeys, hcstore]
      simp
    · -- the dict still has room: the plain insertion branch runs
      have hcond :
          ¬ ((⟨C, ((l.map Prod.fst).drop (l.length - C)).reverse,
            l.drop (l.length - C)⟩ : LRUDict K V).maxsize ≤
          (⟨C, ((l.map Prod.fst).drop (l.length - C)).reverse,
            l.drop (l.length - C)⟩ : LRUDict K V).curkeys.length) := by
        simp only [List.length_reverse, List.length_drop, hkeyslen]
        omega
      rw [if_neg hcond]
      have h0 : l.length - C = 0 := by omega
      have h0' : l.length + 1 - C = 0 := by omega
      have hset : storeSet p.1 p.2 (l.drop (l.length - C)) = l ++ [p] := by
        rw [h0, List.drop_zero, storeSet_eq_append_of_not_mem hp]
      show (⟨C, p.1 :: ((l.map Prod.fst).drop (l.length - C)).reverse,
          storeSet p.1 p.2 (l.drop (l.length - C))⟩ : LRUDict K V) = _
      rw [hset, h0, List.drop_zero]
      have hlen2 : (l ++ [p]).length = l.length + 1 := by simp
      rw [hlen2, h0', List.drop_zero, List.drop_zero, List.map_append]
      simp

/-- C3.  Starting from an empty `LRUDict` of capacity `C ≥ 1` and performing
any sequence of `set` calls with pairwise-distinct keys: at every point both
the key order and the storage hold at most `C` entries and the key order is
duplicate-free; and the `set` performing the `(C+1)`-th distinct insert
evicts exactly the key that is least recent at that moment (the eldest key
leaves, every other live key stays, the map stays at `C` entries). -/
theorem claim_C3_capacity_and_eviction (C : Int) (hC : 1 ≤ C)
    (ops : List (K × V)) (hnd : (ops.map Prod.fst).Nodup) (d0 : LRUDict K V)
    (hinit : LRUDict.init? C [] = some d0) :
    (∀ j : Nat,
      (d0.setAll (ops.take j)).curkeys.length ≤ C.toNat ∧
      (d0.setAll (ops.take j)).storage.length ≤ C.toNat ∧
      (d0.setAll (ops.take j)).curkeys.Nodup) ∧
    (ops.length = C.toNat + 1 →
      ∃ e, (d0.setAll (ops.take C.toNat)).eldest? = some e ∧
        (ops.map Prod.fst).head? = some e ∧
        e ∉ (d0.setAll ops).curkeys ∧
        storeLookup e (d0.setAll ops).storage = none ∧
        (∀ x ∈ (d0.setAll (ops.take C.toNat)).curkeys,
          x ≠ e → x ∈ (d0.setAll ops).curkeys) ∧
        (d0.setAll ops).curkeys.length = C.toNat) := by
  have hCn : 1 ≤ C.toNat := by omega
  have hd0 : d0 = ⟨C.toNat, [], []⟩ := by
    rw [LRUDict.init?, if_neg (by omega)] at hinit
    simpa using hinit.symm
  subst hd0
  have closed := fun (sub : List (K × V)) (hsub : (sub.map Prod.fst).Nodup) =>
    setAll_fresh_closed C.toNat hCn sub hsub
  constructor
  · intro j
    have hsub : ((ops.take j).map Prod.fst).Nodup := by
      rw [List.map_take]
      exact ((ops.map Prod.fst).take_sublist j).nodup hnd
    rw [closed (ops.take j) hsub]
    refine ⟨?_, ?_, ?_⟩
    · simp only [List.length_reverse, List.length_drop, List.length_map]
      omega
    · simp only [List.length_drop]
      omega
    · exact (List.nodup_reverse).mpr
        ((((ops.take j).map Prod.fst).drop_sublist _).nodup hsub)
  · intro hlen
    obtain ⟨p0, pt, rfl⟩ : ∃ p0 pt, ops = p0 :: pt := by
      cases ops with
      | nil => simp at hlen
      | cons p0 pt => exact ⟨p0, pt, rfl⟩
    have hndt : (pt.map Prod.fst).Nodup := (List.nodup_cons.mp hnd).2
    have hp0 : p0.1 ∉ pt.map Prod.fst := (List.nodup_cons.mp hnd).1
    have hlent : pt.length = C.toNat := by
      simpa using hlen
    refine ⟨p0.1, ?_, ?_, ?_, ?_, ?_, ?_⟩
    · -- after the first `C` inserts the eldest key is the first-inserted one
      have hsub : (((p0 :: pt).take C.toNat).map Prod.fst).Nodup := by
        rw [List.map_take]
        exact (((p0 :: pt).map Prod.fst).take_sublist _).nodup hnd
      rw [closed _ hsub, LRUDict.eldest?]
      have htlen : ((p0 :: pt).take C.toNat).length = C.toNat := by
        rw [List.length_take]
        simp [hlen]
      rw [htlen, Nat.sub_self, List.drop_zero, List.getLast?_reverse]
      cases hc : C.toNat with
      | zero => omega
      | succ m => simp [List.take_cons]
    · simp
    · rw [closed _ hnd]
      have : ((p0 :: pt).map Prod.fst).drop ((p0 :: pt).length - C.toNat) = pt.map Prod.fst := by
        have : (p0 :: pt).length - C.toNat = 1 := by simp [hlen]
        rw [this, List.map_cons, List.drop_one, List.tail_cons]
      rw [this, List.mem_reverse]
      exact hp0
    · rw [closed _ hnd]
      have : (p0 :: pt).drop ((p0 :: pt).length - C.toNat) = pt := by
        have h1 : (p0 :: pt).length - C.toNat = 1 := by simp [hlen]
        rw [h1, List.drop_one, List.tail_cons]
      rw [this]
      exact storeLookup_eq_none_of_not_mem hp0
    · intro x hx hxne
      have hsub : (((p0 :: pt).take C.toNat).map Prod.fst).Nodup := by
        rw [List.map_take]
        exact (((p0 :: pt).map Prod.fst).take_sublist _).nodup hnd
      rw [closed _ hsub] at hx
      have hxmem : x ∈ ((p0 :: pt).take C.toNat).map Prod.fst :=
        List.mem_of_mem_drop (List.mem_reverse.mp hx)
      have hxfull : x ∈ (p0 :: pt).map Prod.fst := by
        rw [List.map_take] at hxmem
        exact List.mem_of_mem_take hxmem
      have h1 : (p0 :: pt).length - C.toNat = 1 := by simp [hlen]
      have h2 : ((p0 :: pt).map Prod.fst).drop 1 = pt.map Prod.fst := by
        rw [List.map_cons, List.drop_one, List.tail_cons]
      rw [closed _ hnd, h1, h2, List.mem_reverse]
      rcases List.mem_cons.mp hxfull with h4 | h4
      · exact absurd h4 hxne
      · exact h4
    · rw [closed _ hnd]
      have h1 : (p0 :: pt).length - C.toNat = 1 := by simp [hlen]
      simp [h1, hlent]

/-- C3 witness: capacity `2`, inserts `1, 2, 3`; the third insert evicts
key `1`, the first-inserted and least-recently-touched key. -/
theorem claim_C3_witness :
    ∃ e, ((⟨2, [], []⟩ : LRUDict Nat Nat).setAll ([(1, 10), (2, 20), (3, 30)].take 2)).eldest?
        = some e ∧
      ([(1, 10), (2, 20), (3, 30)].map Prod.fst).head? = some e ∧
      e ∉ ((⟨2, [], []⟩ : LRUDict Nat Nat).setAll [(1, 10), (2, 20), (3, 30)]).curkeys ∧
      storeLookup e ((⟨2, [], []⟩ : LRUDict Nat Nat).setAll [(1, 10), (2, 20), (3, 30)]).storage
        = none ∧
      (∀ x ∈ ((⟨2, [], []⟩ : LRUDict Nat Nat).setAll ([(1, 10), (2, 20), (3, 30)].take 2)).curkeys,
        x ≠ e → x ∈ ((⟨2, [], []⟩ : LRUDict Nat Nat).setAll [(1, 10), (2, 20), (3, 30)]).curkeys) ∧
      ((⟨2, [], []⟩ : LRUDict Nat Nat).setAll [(1, 10), (2, 20), (3, 30)]).curkeys.length = 2 :=
  (claim_C3_capacity_and_eviction 2 (by omega) [(1, 10), (2, 20), (3, 30)]
    (by decide) ⟨2, [], []⟩ (by decide)).2 (by decide)

/-! ### C10: construction from oversized initial data -/

theorem storeLookup_filterMapStore_of_mem {g : K → Option V} {l : List K}
    {x : K} {v : V} (hx : x ∈ l) (hg : g x = some v) :
    storeLookup x (l.filterMap fun k => (g k).map fun w => (k, w)) = some v := by
  induction l with
  | nil => cases hx
  | cons a t ih =>
    rw [List.filterMap_cons]
    cases hga : g a with
    | none =>
      rcases List.mem_cons.mp hx with rfl | hmem
      · rw [hga] at hg; cases hg
      · simp only [Option.map_none']
        exact ih hmem
    | some w =>
      simp only [Option.map_some']
      by_cases hax : a = x
      · subst hax
        rw [hga] at hg
        simp only [Option.some.injEq] at hg
        simp [storeLookup, hg]
      · have hmem : x ∈ t := by
          rcases List.mem_cons.mp hx with rfl | hmem
          · exact absurd rfl hax
          · exact hmem
        simp [storeLookup, hax, ih hmem]

theorem storeLookup_filterMapStore_of_not_mem {g : K → Option V} {l : List K}
    {x : K} (hx : x ∉ l) :
    storeLookup x (l.filterMap fun k => (g k).map fun w => (k, w)) = none := by
  induction l with
  | nil => rfl
  | cons a t ih =>
    have hax : ¬ a = x := fun h => hx (h ▸ List.mem_cons_self a t)
    have hxt : x ∉ t := fun h => hx (List.mem_cons_of_mem _ h)
    rw [List.filterMap_cons]
    cases hga : g a with
    | none => simpa using ih hxt
    | some w => simp [storeLookup, hax, ih hxt]

theorem storeLookup_append_of_none {key : K} {s t : List (K × V)}
    (h : storeLookup key s = none) :
    storeLookup key (s ++ t) = storeLookup key t := by
  induction s with
  | nil => rfl
  | cons p rest ih =>
    obtain ⟨k, v⟩ := p
    rw [storeLookup] at h
    by_cases hk : k = key
    · rw [if_pos hk] at h; cases h
    · rw [if_neg hk] at h
      rw [List.cons_append, storeLookup, if_neg hk]
      exact ih h

/-- C10.  Constructing an `LRUDict` with `maxsize = m ≥ 1` from initial data
`xs ++ ys` whose keys are pairwise distinct and where `ys` holds the last
`m` entries (so the data has `n > m` entries whenever `xs` is non-empty)
succeeds without an error, and silently keeps exactly the entries of `ys`:
the key order is `ys`'s keys reversed (last given = most recent, first entry
of `ys` — the `(n-m+1)`-th datum — = least recent), every entry of `ys` is
readable, every entry of `xs` is gone. -/
theorem claim_C10_oversized_init_keeps_last (m : Int) (xs ys : List (K × V))
    (hm : 1 ≤ m) (hyslen : ys.length = m.toNat) (hxs : xs ≠ [])
    (hnd : ((xs ++ ys).map Prod.fst).Nodup) :
    ∃ d : LRUDict K V,
      LRUDict.init? m (xs ++ ys) = some d ∧
      d.curkeys = (ys.map Prod.fst).reverse ∧
      d.curkeys.length = m.toNat ∧
      d.recent? = (ys.map Prod.fst).getLast? ∧
      d.eldest? = (ys.map Prod.fst).head? ∧
      (∀ p ∈ ys, storeLookup p.1 d.storage = some p.2) ∧
      (∀ p ∈ xs, storeLookup p.1 d.storage = none) := by
  have hnd2 := hnd
  rw [List.map_append] at hnd2
  rcases List.nodup_append.mp hnd2 with ⟨hnd_xs, hnd_ys, hdisj⟩
  have hdropkeys :
      ((xs ++ ys).map Prod.fst).drop (((xs ++ ys).map Prod.fst).length - m.toNat)
        = ys.map Prod.fst := by
    rw [List.map_append]
    have hlen : (xs.map Prod.fst ++ ys.map Prod.fst).length - m.toNat
        = (xs.map Prod.fst).length := by
      simp only [List.length_append, List.length_map]
      omega
    rw [hlen, List.drop_left]
  have hm0 : ¬ m ≤ 0 := by omega
  have hinit : LRUDict.init? m (xs ++ ys) =
      some ⟨m.toNat, (ys.map Prod.fst).reverse,
        ((ys.map Prod.fst).reverse).filterMap fun k =>
          (storeLookup k (xs ++ ys)).map fun v => (k, v)⟩ := by
    simp only [LRUDict.init?, if_neg hm0, hdropkeys]
  refine ⟨_, hinit, rfl, ?_, ?_, ?_, ?_, ?_⟩
  · simp [hyslen]
  · show ((ys.map Prod.fst).reverse).head? = (ys.map Prod.fst).getLast?
    rw [List.head?_reverse]
  · show ((ys.map Prod.fst).reverse).getLast? = (ys.map Prod.fst).head?
    rw [List.getLast?_reverse]
  · intro p hp
    have hpk : p.1 ∈ ys.map Prod.fst := List.mem_map.mpr ⟨p, hp, rfl⟩
    have hnotxs : storeLookup p.1 xs = none := by
      apply storeLookup_eq_none_of_not_mem
      exact fun hmem => hdisj hmem hpk
    apply storeLookup_filterMapStore_of_mem (List.mem_reverse.mpr hpk)
    rw [storeLookup_append_of_none hnotxs]
    exact storeLookup_of_mem_of_nodup hnd_ys (by
      obtain ⟨k, v⟩ := p
      exact hp)
  · intro p hp
    have hpk : p.1 ∈ xs.map Prod.fst := List.mem_map.mpr ⟨p, hp, rfl⟩
    apply storeLookup_filterMapStore_of_not_mem
    rw [List.mem_reverse]
    exact fun hmem => hdisj hpk hmem

/-- C10 witness: `maxsize = 2` with three initial entries keeps the last
two, with key `3` most recent, key `2` least recent, and key `1` dropped. -/
theorem claim_C10_witness :
    ∃ d : LRUDict Nat Nat,
      LRUDict.init? 2 ([(1, 10)] ++ [(2, 20), (3, 30)]) = some d ∧
      d.curkeys = ([(2, 20), (3, 30)].map Prod.fst).reverse ∧
      d.curkeys.length = (2 : Int).toNat ∧
      d.recent? = ([(2, 20), (3, 30)].map Prod.fst).getLast? ∧
      d.eldest? = ([(2, 20), (3, 30)].map Prod.fst).head? ∧
      (∀ p ∈ [(2, 20), (3, 30)], storeLookup p.1 d.storage = some p.2) ∧
      (∀ p ∈ [(1, 10)], storeLookup p.1 d.storage = none) :=
  claim_C10_oversized_init_keeps_last 2 [(1, 10)] [(2, 20), (3, 30)]
    (by omega) (by decide) (by decide) (by decide)

/-! ### CachePlain (caches/memory.py, lines 66-165) -/

/-- `CachePlain`: a thin wrapper around one `LRUDict` keyed by strings. -/
structure CachePlain (Info Data : Type) where
  cache : LRUDict String (Info × Data)
deriving DecidableEq

/-- `CachePlain.__init__`, lines 76-89: `cache_size < 1` raises
`ValueError` (modelled by `none`); otherwise an empty `LRUDict` with
`maxsize=cache_size` is created. -/
def CachePlain.init? (Info Data : Type) (cache_size : Int) :
    Option (CachePlain Info Data) :=
  if cache_size < 1 then none
  else (LRUDict.init? cache_size []).map fun d => ⟨d⟩

/-- `CachePlain.is_in`, lines 102-107. -/
def CachePlain.is_in {Info Data : Type} (c : CachePlain Info Data)
    (key : String) : Bool :=
  c.cache.contains key

/-- `CachePlain.load`, lines 141-165: read `(info, value)` out of the LRU
dict (raising `KeyError` on a miss, before any state change) and return the
metadata together with a deferred producer `_deferred` that closes over the
local variable `value` read at `load` time — it does not re-read the map. -/
def CachePlain.load {Info Data : Type} (c : CachePlain Info Data)
    (key : String) : Option (Info × (Unit → Data) × CachePlain Info Data) :=
  match c.cache.getitem key with
  | none => none
  | some ((info, value), d1) => some (info, fun _ => value, ⟨d1⟩)

/-- `CachePlain.dump`, lines 124-139: `self.__cache[key] = (info, data)`. -/
def CachePlain.dump {Info Data : Type} (c : CachePlain Info Data)
    (key : String) (info : Info) (data : Data) : CachePlain Info Data :=
  ⟨c.cache.setitem key (info, data)⟩

/-- `CachePlain.remove`, lines 109-122: `info = self.load_info(key)`
(that is, `load(key)[0]`), then `del self.__cache[key]`. -/
def CachePlain.remove {Info Data : Type} (c : CachePlain Info Data)
    (key : String) : Option (Info × CachePlain Info Data) :=
  match c.load key with
  | none => none
  | some (info, _, c1) =>
    match c1.cache.delitem key with
    | none => none
    | some d2 => some (info, ⟨d2⟩)

/-- After `__setitem__` the key reads back to the assigned value (every
branch of `__setitem__` ends in `self.__storage[key] = value`). -/
theorem getitem_setitem_self (d : LRUDict K V) (key : K) (val : V) :
    (d.setitem key val).getitem key
      = some (val, (d.setitem key val).move_to_recent key) := by
  have h : storeLookup key (d.setitem key val).storage = some val := by
    rw [LRUDict.setitem]
    split
    · exact storeLookup_storeSet_self ..
    · split
      · split
        · exact storeLookup_storeSet_self ..
        · exact storeLookup_storeSet_self ..
      · exact storeLookup_storeSet_self ..
  rw [LRUDict.getitem, h]

/-- C4.  In-process round trip: `dump(key, info, payload)` followed by
`load(key)` returns `info` unchanged and a deferred producer yielding the
dumped payload.  The producer captures the payload by value at `load` time:
after a second `dump` of `payload2` to the same key, the first producer
still returns `payload`, while a fresh `load` sees `payload2`. -/
theorem claim_C4_plain_round_trip_by_value (Info Data : Type)
    (c : CachePlain Info Data) (key : String) (info : Info) (data : Data)
    (info2 : Info) (data2 : Data) :
    ∃ prod c2, (c.dump key info data).load key = some (info, prod, c2) ∧
      prod () = data ∧
      ∃ prod2 c3, (c2.dump key info2 data2).load key = some (info2, prod2, c3) ∧
        prod2 () = data2 ∧ prod () = data := by
  refine ⟨fun _ => data,
    ⟨(c.cache.setitem key (info, data)).move_to_recent key⟩, ?_, rfl,
    fun _ => data2,
    ⟨(((c.cache.setitem key (info, data)).move_to_recent key).setitem key
        (info2, data2)).move_to_recent key⟩, ?_, rfl, rfl⟩
  · simp only [CachePlain.dump, CachePlain.load, getitem_setitem_self]
  · simp only [CachePlain.dump, CachePlain.load, getitem_setitem_self]

/-! ### CacheQueue (caches/memory.py, lines 168-488)

Owner-side state of a `CacheQueue`: the authoritative `LRUDict`.  The
synchronization queue and its listener thread are real concurrency and are
outside this embedding; the claims below concern the direct method calls,
whose behaviour branches on the ambient `utilities.is_in_main_process()`
test, passed here explicitly as `inMain`. -/

structure CacheQueue (Info Data : Type) where
  cache : LRUDict String (Info × Data)
deriving DecidableEq

/-- A raised Python exception of the cache layer. -/
inductive PyError where
  | notImplementedError
  | keyError
deriving DecidableEq

/-- `CacheQueue.__init__`, lines 261-300: `cache_size < 1` raises
`ValueError` (modelled by `none`); otherwise an empty `LRUDict` is
created.  (The optional queue argument only configures the listener.) -/
def CacheQueue.init? (Info Data : Type) (cache_size : Int) :
    Option (CacheQueue Info Data) :=
  if cache_size < 1 then none
  else (LRUDict.init? cache_size []).map fun d => ⟨d⟩

/-- `CacheQueue.is_in`, lines 413-423: in a non-main process the method
returns `False` — it does not raise; in the main process it tests the
map. -/
def CacheQueue.is_in {Info Data : Type} (inMain : Bool)
    (c : CacheQueue Info Data) (key : String) : Except PyError Bool :=
  if !inMain then .ok false
  else .ok (c.cache.contains key)

/-- `CacheQueue.load`, lines 457-488: raises `NotImplementedError` outside
the main process; otherwise reads the map and returns the metadata plus the
by-value deferred producer. -/
def CacheQueue.load {Info Data : Type} (inMain : Bool)
    (c : CacheQueue Info Data) (key : String) :
    Except PyError (Info × (Unit → Data) × CacheQueue Info Data) :=
  if !inMain then .error .notImplementedError
  else
    match c.cache.getitem key with
    | none => .error .keyError
    | some ((info, value), d1) => .ok (info, fun _ => value, ⟨d1⟩)

/-- `CacheQueue.remove`, lines 425-438: `info = self.load_info(key)` first —
hence outside the main process it raises through `load` — then `del`. -/
def CacheQueue.remove {Info Data : Type} (inMain : Bool)
    (c : CacheQueue Info Data) (key : String) :
    Except PyError (Info × CacheQueue Info Data) :=
  match CacheQueue.load inMain c key with
  | .error e => .error e
  | .ok (info, _, c1) =>
    match c1.cache.delitem key with
    | none => .error .keyError
    | some d2 => .ok (info, ⟨d2⟩)

/-- A concrete `CacheQueue` state used for the C2 counterexample. -/
def cqC2 : CacheQueue Nat Nat := ⟨⟨3, [], []⟩⟩

/-- C2 counterexample.  Called from a non-main process, `CacheQueue.is_in`
does not raise a capability error: it returns `False` (`Except.ok false`),
refuting the claim that all three of `is_in`, `remove`, `load` raise. -/
theorem claim_C2_counterexample_is_in_returns_false :
    CacheQueue.is_in false cqC2 "k" = Except.ok false ∧
      ∀ e : PyError, CacheQueue.is_in false cqC2 "k" ≠ Except.error e :=
  ⟨rfl, fun _ h => Except.noConfusion h⟩

/-- C2 amended.  From a process other than the owning (main) process,
`remove` and `load` on a `CacheQueue` raise the capability error
(`NotImplementedError`) for every key and state, while `is_in` instead
returns `False` without raising. -/
theorem claim_C2_amended_subprocess_capabilities (Info Data : Type)
    (c : CacheQueue Info Data) (key : String) :
    CacheQueue.is_in false c key = Except.ok false ∧
    CacheQueue.load false c key = Except.error PyError.notImplementedError ∧
    CacheQueue.remove false c key = Except.error PyError.notImplementedError :=
  ⟨rfl, rfl, rfl⟩

/-! ### CacheFile construction guard (caches/tempfile.py, lines 66-100) -/

/-- `CacheFile.__init__`: `chunk_size < 1` raises `ValueError` (`none`);
otherwise the byte chunk size `chunk_size * 1024 * 1024` is recorded.  (The
temporary-directory handling is file-system state, outside this embedding;
it does not reject any validated `chunk_size`.) -/
def CacheFile.init? (chunk_size : Int) : Option Int :=
  if chunk_size < 1 then none else some (chunk_size * 1024 * 1024)

/-- C8.  Constructing an `LRUDict` with `maxsize c`, a `CachePlain` or
`CacheQueue` with `cache_size c`, or a `CacheFile` with `chunk_size c`
succeeds exactly when `c ≥ 1`: for every `c ≤ 0` the constructor raises its
configuration `ValueError` before any entry can be stored. -/
theorem claim_C8_constructor_guards (c : Int) :
    ((LRUDict.init? (K := K) (V := V) c []).isSome ↔ 1 ≤ c) ∧
    ((CachePlain.init? Nat Nat c).isSome ↔ 1 ≤ c) ∧
    ((CacheQueue.init? Nat Nat c).isSome ↔ 1 ≤ c) ∧
    ((CacheFile.init? c).isSome ↔ 1 ≤ c) := by
  have hlru : ∀ (K2 V2 : Type) (inst : DecidableEq K2),
      (LRUDict.init? (K := K2) (V := V2) c []).isSome ↔ 1 ≤ c := by
    intro K2 V2 inst
    rw [LRUDict.init?]
    by_cases h : c ≤ 0
    · simp [h] <;> omega
    · simp [h] <;> omega
  refine ⟨hlru K V inferInstance, ?_, ?_, ?_⟩
  · rw [CachePlain.init?]
    by_cases h : c < 1
    · simp [h] <;> omega
    · simp [h, (hlru String (Nat × Nat) inferInstance)] <;> omega
  · rw [CacheQueue.init?]
    by_cases h : c < 1
    · simp [h] <;> omega
    · simp [h, (hlru String (Nat × Nat) inferInstance)] <;> omega
  · rw [CacheFile.init?]
    by_cases h : c < 1
    · simp [h] <;> omega
    · simp [h] <;> omega

/-! ### Service-layer data model (caches/typehints.py) -/

/-- The `Literal["path", "str", "bytes", "request"]` tag used by
`CachedFileInfo.type` (typehints.py line 54). -/
inductive FileType where
  | path
  | str
  | bytes
  | request
deriving DecidableEq

/-- The literal string value of the tag. -/
def FileType.toStr : FileType → String
  | .path => "path"
  | .str => "str"
  | .bytes => "bytes"
  | .request => "request"

/-- `CachedFileInfo` (typehints.py lines 51-78). -/
structure CachedFileInfo where
  type : FileType
  data_size : Int
  file_name : String
  content_type : String
  mime_type : String
  one_time_service : Bool
deriving DecidableEq

/-- `CachedData` (typehints.py lines 81-143), the tagged union of payloads.
For the `path` arm, `content` stands for the bytes of the file on disk at
the stored path (what `open(path, "rb")` followed by a full read yields);
for the IO arms it is the buffered text/bytes. -/
inductive CachedData where
  | path (content : String)
  | strio (content : String)
  | bytesio (content : String)
  | request (url : String) (headers : List (String × String))
      (file_name_fallback : String)
deriving DecidableEq

/-- Errors raised along `ServiceData.stream` (data.py lines 288-429). -/
inductive SvcErr where
  | fileNotFoundExpired
  | fileNotFoundEmpty
  | typeErrorUnknownType
  | typeErrorMismatch
  | typeErrorRequestData
  | keyError
deriving DecidableEq

/-- `ServiceData._stream_data_to_loader` (data.py lines 288-309): interpret
a loaded payload as a file-like object — a `path` payload is opened and read
as binary, `request` data raises a `TypeError`, the IO arms are used
directly; the cursor is reset to the start, so the whole content is
delivered. -/
def streamDataToLoader : CachedData → Except SvcErr String
  | .path content => .ok content
  | .strio content => .ok content
  | .bytesio content => .ok content
  | .request _ _ _ => .error .typeErrorRequestData

/-- The chunked read loop of the streaming provider (data.py lines 407-417):
`data = _fobj.read(chunk_size)` repeatedly until `read` returns an empty
(falsy) result.  `read(0)` returns the empty string, which ends the loop at
once, hence the `n = 0` guard. -/
def chunksOfList (n : Nat) (s : List Char) : List (List Char) :=
  if hn : n = 0 then []
  else if h : s = [] then []
  else s.take n :: chunksOfList n (s.drop n)
termination_by s.length
decreasing_by
  have h1 : 0 < s.length := List.length_pos.mpr h
  have h2 : 0 < n := Nat.pos_of_ne_zero hn
  simp only [List.length_drop]
  omega

def chunksOf (n : Nat) (s : String) : List String :=
  (chunksOfList n s.data).map fun l => String.mk l

/-- The outcome of one full run of the response stream built by
`ServiceData.stream` (data.py lines 357-429) over a `CachePlain`-backed
service: the yielded chunks together with the cache state after the scoped
region exits, or the hand-off to the remote-proxy stream (whose network
behaviour is not modelled further). -/
inductive StreamResult where
  | streamed (chunks : List String)
      (cacheAfter : CachePlain CachedFileInfo CachedData)
  | requestForwarded (info : CachedFileInfo)

/-- `ServiceData.stream(uid)` (data.py lines 357-429) with the generator run
to completion: miss check, `load`, tag check, the empty-payload check
(`data_size <= 0` for non-`request` entries), the request branch, and the
scoped `StreamFinalizer` consumption (utilities.py lines 160-179) whose
`at_closed` callback (`_stream_get_at_closed`, data.py lines 311-327)
removes the entry from the cache when `one_time_service` is set.  (The
callback also truncates/closes the freshly produced file handle, which does
not alter the cache contents and is not tracked.) -/
def ServiceData.stream (cache : CachePlain CachedFileInfo CachedData)
    (chunk_size : Nat) (uid : String) : Except SvcErr StreamResult :=
  if ¬ cache.is_in uid then .error .fileNotFoundExpired
  else
    match cache.load uid with
    | none => .error .keyError
    | some (info, deferred, c1) =>
      if ¬ (info.type.toStr ∈ ["path", "str", "bytes", "request"]) then
        .error .typeErrorUnknownType
      else if info.type ≠ .request ∧ info.data_size ≤ 0 then
        .error .fileNotFoundEmpty
      else if info.type = .request then
        match deferred () with
        | .request _ _ _ => .ok (.requestForwarded info)
        | _ => .error .typeErrorMismatch
      else
        match streamDataToLoader (deferred ()) with
        | .error e => .error e
        | .ok content =>
          if info.one_time_service then
            match c1.remove uid with
            | none => .error .keyError
            | some (_, c2) => .ok (.streamed (chunksOf chunk_size content) c2)
          else .ok (.streamed (chunksOf chunk_size content) c1)

/-- C9.  A cached entry whose metadata tag is not `request` and whose
recorded `data_size` is `≤ 0` is never streamable: `is_in(uid)` is true,
yet `stream(uid)` raises the not-found error `"the requested file ... is
empty"`. -/
theorem claim_C9_zero_size_not_streamable
    (cache : CachePlain CachedFileInfo CachedData) (uid : String) (n : Nat)
    (info : CachedFileInfo) (data : CachedData)
    (hlk : storeLookup uid cache.cache.storage = some (info, data))
    (hreq : info.type ≠ FileType.request) (hsz : info.data_size ≤ 0) :
    cache.is_in uid = true ∧
    ServiceData.stream cache n uid = .error .fileNotFoundEmpty := by
  have hin : cache.is_in uid = true := by
    simp [CachePlain.is_in, LRUDict.contains, hlk]
  refine ⟨hin, ?_⟩
  have hload : cache.load uid
      = some (info, fun _ => data, ⟨cache.cache.move_to_recent uid⟩) := by
    simp only [CachePlain.load, LRUDict.getitem, hlk]
  have htype : info.type.toStr ∈ ["path", "str", "bytes", "request"] := by
    cases info.type <;> simp [FileType.toStr]
  rw [ServiceData.stream, if_neg (not_not_intro hin)]
  simp only [hload]
  rw [if_neg (not_not_intro htype), if_pos ⟨hreq, hsz⟩]

/-- A concrete service cache holding one zero-size text entry under `"u"`,
witnessing C9. -/
def svcC9 : CachePlain CachedFileInfo CachedData :=
  ⟨⟨10, ["u"],
    [("u", ({ type := .str, data_size := 0, file_name := "f",
              content_type := "text/plain", mime_type := "text/plain",
              one_time_service := false }, CachedData.strio ""))]⟩⟩

theorem claim_C9_witness :
    svcC9.is_in "u" = true ∧
    ServiceData.stream svcC9 4 "u" = .error .fileNotFoundEmpty :=
  claim_C9_zero_size_not_streamable svcC9 "u" 4 _ _ rfl (by decide) (by decide)

/-- C5.  A cached entry registered with `one_time_service = true` and tag
`path`/`str`/`bytes` (with a streamable, matching payload): the scoped
stream runs to completion and the `at_closed` finalizer removes the entry,
so `is_in(uid)` is false on the resulting cache state. -/
theorem claim_C5_one_time_entry_removed_after_stream
    (cache : CachePlain CachedFileInfo CachedData) (uid : String) (n : Nat)
    (info : CachedFileInfo) (data : CachedData)
    (hnd : (cache.cache.storage.map Prod.fst).Nodup)
    (hlk : storeLookup uid cache.cache.storage = some (info, data))
    (hone : info.one_time_service = true)
    (htype3 : info.type = .path ∨ info.type = .str ∨ info.type = .bytes)
    (hsz : 0 < info.data_size)
    (hdata : ∀ url headers fallback, data ≠ .request url headers fallback) :
    ∃ chunks c2, ServiceData.stream cache n uid = .ok (.streamed chunks c2) ∧
      c2.is_in uid = false := by
  have hreq : info.type ≠ FileType.request := by
    rcases htype3 with h | h | h <;> simp [h]
  have hin : cache.is_in uid = true := by
    simp [CachePlain.is_in, LRUDict.contains, hlk]
  have hload : cache.load uid
      = some (info, fun _ => data, ⟨cache.cache.move_to_recent uid⟩) := by
    simp only [CachePlain.load, LRUDict.getitem, hlk]
  have htype : info.type.toStr ∈ ["path", "str", "bytes", "request"] := by
    cases info.type <;> simp [FileType.toStr]
  obtain ⟨content, hloader⟩ : ∃ content, streamDataToLoader data = .ok content := by
    cases data with
    | path c => exact ⟨c, rfl⟩
    | strio c => exact ⟨c, rfl⟩
    | bytesio c => exact ⟨c, rfl⟩
    | request u h f => exact absurd rfl (hdata u h f)
  have hstor1 : (cache.cache.move_to_recent uid).storage = cache.cache.storage :=
    storage_move_to_recent ..
  have hload1 : CachePlain.load ⟨cache.cache.move_to_recent uid⟩ uid
      = some (info, fun _ => data,
          ⟨(cache.cache.move_to_recent uid).move_to_recent uid⟩) := by
    simp only [CachePlain.load, LRUDict.getitem, hstor1, hlk]
  have hstor2 :
      ((cache.cache.move_to_recent uid).move_to_recent uid).storage
        = cache.cache.storage := by
    rw [storage_move_to_recent, hstor1]
  have hdel : ((cache.cache.move_to_recent uid).move_to_recent uid).delitem uid
      = some { (cache.cache.move_to_recent uid).move_to_recent uid with
          curkeys :=
            pyRemove uid ((cache.cache.move_to_recent uid).move_to_recent uid).curkeys
          storage :=
            storeDel uid
              ((cache.cache.move_to_recent uid).move_to_recent uid).storage } := by
    rw [LRUDict.delitem, if_pos]
    show LRUDict.contains _ uid = true
    simp [LRUDict.contains, hstor2, hlk]
  have hremove : CachePlain.remove ⟨cache.cache.move_to_recent uid⟩ uid
      = some (info,
          ⟨{ (cache.cache.move_to_recent uid).move_to_recent uid with
              curkeys :=
                pyRemove uid
                  ((cache.cache.move_to_recent uid).move_to_recent uid).curkeys
              storage :=
                storeDel uid
                  ((cache.cache.move_to_recent uid).move_to_recent uid).storage }⟩) := by
    simp only [CachePlain.remove, hload1, hdel]
  refine ⟨chunksOf n content,
    ⟨{ (cache.cache.move_to_recent uid).move_to_recent uid with
        curkeys :=
          pyRemove uid ((cache.cache.move_to_recent uid).move_to_recent uid).curkeys
        storage :=
          storeDel uid
            ((cache.cache.move_to_recent uid).move_to_recent uid).storage }⟩,
    ?_, ?_⟩
  · rw [ServiceData.stream, if_neg (not_not_intro hin)]
    simp only [hload]
    rw [if_neg (not_not_intro htype),
      if_neg (show ¬ (info.type ≠ FileType.request ∧ info.data_size ≤ 0) by
        rintro ⟨-, h2⟩; omega),
      if_neg (by simpa using hreq)]
    simp only [hloader, if_pos hone, hremove]
  · simp only [CachePlain.is_in, LRUDict.contains, hstor2]
    rw [storeLookup_storeDel_self_of_nodup hnd]
    rfl

/-- A concrete service cache holding one `one_time_service` text entry under
`"w"`, witnessing C5. -/
def svcC5 : CachePlain CachedFileInfo CachedData :=
  ⟨⟨10, ["w"],
    [("w", ({ type := .str, data_size := 3, file_name := "f",
              content_type := "text/plain", mime_type := "text/plain",
              one_time_service := true }, CachedData.strio "abc"))]⟩⟩

theorem claim_C5_witness :
    ∃ chunks c2, ServiceData.stream svcC5 2 "w" = .ok (.streamed chunks c2) ∧
      c2.is_in "w" = false :=
  claim_C5_one_time_entry_removed_after_stream svcC5 "w" 2 _ _ (by decide) rfl
    (by decide) (Or.inr (Or.inl rfl)) (by decide) (fun _ _ _ h => nomatch h)

/-! ### Remote-proxy metadata refinement (services/reqstream.py)

The Python string primitives used by `__update_info` — substring
containment (`in`), `rsplit(..., maxsplit=1)[-1]`, `split(";", 1)[0]`,
`str.strip()` and `int(...)` — are embedded structurally over `List Char`
so that they evaluate on concrete headers. -/

/-- `pat` is a leading segment of `s` (character-wise). -/
def charsStartWith : List Char → List Char → Bool
  | [], _ => true
  | _ :: _, [] => false
  | p :: ps, c :: cs => p = c && charsStartWith ps cs

/-- Python `pat in s`: `pat` occurs contiguously in `s`. -/
def charsContain (pat : List Char) : List Char → Bool
  | [] => charsStartWith pat []
  | c :: cs => charsStartWith pat (c :: cs) || charsContain pat cs

/-- The suffix of `s` after the last occurrence of `pat`; `none` when `pat`
does not occur. -/
def afterLast (pat : List Char) : List Char → Option (List Char)
  | [] => if charsStartWith pat [] then some [] else none
  | c :: cs =>
    match afterLast pat cs with
    | some r => some r
    | none =>
      if charsStartWith pat (c :: cs) then some ((c :: cs).drop pat.length)
      else none

/-- The part of `s` before the first occurrence of `pat` (all of `s` when
`pat` does not occur): Python `s.split(pat, maxsplit=1)[0]`. -/
def beforeFirst (pat : List Char) : List Char → List Char
  | [] => []
  | c :: cs => if charsStartWith pat (c :: cs) then [] else c :: beforeFirst pat cs

def dropLeadingWS : List Char → List Char
  | [] => []
  | c :: cs => if c.isWhitespace then dropLeadingWS cs else c :: cs

/-- Python `str.strip()`. -/
def pyStrip (s : String) : String :=
  String.mk ((dropLeadingWS ((dropLeadingWS s.data).reverse)).reverse)

/-- Python `int(str)`: optional surrounding whitespace, an optional sign,
then decimal digits; anything else raises `ValueError` (`none`). -/
def pyInt? (s : String) : Option Int :=
  let digitsVal : List Char → Option Nat := fun l =>
    if l.isEmpty then none
    else
      l.foldl
        (fun acc? c =>
          match acc? with
          | none => none
          | some acc => if c.isDigit then some (acc * 10 + (c.toNat - 48)) else none)
        (some 0)
  match (pyStrip s).data with
  | '-' :: ds => (digitsVal ds).map fun n => -(n : Int)
  | '+' :: ds => (digitsVal ds).map fun n => (n : Int)
  | ds => (digitsVal ds).map fun n => (n : Int)

/-- Python `"filename=" in s`. -/
def pyInStr (pat s : String) : Bool :=
  charsContain pat.data s.data

/-- Python `s.rsplit(pat, maxsplit=1)[-1]`: the suffix of `s` after the last
occurrence of `pat`, or `s` itself when `pat` does not occur. -/
def pyRSplitLast (s pat : String) : String :=
  match afterLast pat.data s.data with
  | some r => String.mk r
  | none => s

/-- `__update_info`, first statement (reqstream.py lines 133-134):
`Content-Length` refines `data_size` through `int(...)`, whose `ValueError`
on unparsable input is modelled by `none`. -/
def updateInfoLength (info : CachedFileInfo)
    (headers : List (String × String)) : Option CachedFileInfo :=
  match storeLookup "Content-Length" headers with
  | some v =>
    match pyInt? v with
    | some sz => some { info with data_size := sz }
    | none => none
  | none => some info

/-- `__update_info`, second group (reqstream.py lines 135-140): a
`Content-Disposition` value carrying a `filename=` token refines
`file_name` with the token's suffix; otherwise a non-empty (truthy)
fall-back name is used; otherwise the name is untouched. -/
def updateInfoName (info : CachedFileInfo) (file_name_fallback : String)
    (headers : List (String × String)) : CachedFileInfo :=
  match storeLookup "Content-Disposition" headers with
  | some fn =>
    if pyInStr "filename=" fn then
      { info with file_name := pyRSplitLast fn "filename=" }
    else if file_name_fallback ≠ "" then
      { info with file_name := file_name_fallback }
    else info
  | none =>
    if file_name_fallback ≠ "" then
      { info with file_name := file_name_fallback }
    else info

/-- `__update_info`, third group (reqstream.py lines 141-145):
`Content-Type` refines `content_type` (stripped) and `mime_type` (the part
before `";"`, stripped). -/
def updateInfoType (info : CachedFileInfo)
    (headers : List (String × String)) : CachedFileInfo :=
  match storeLookup "Content-Type" headers with
  | some ct0 =>
    { info with
      content_type := pyStrip ct0
      mime_type := pyStrip (String.mk (beforeFirst [';'] (pyStrip ct0).data)) }
  | none => info

/-- `DeferredRequestStream.__update_info` (reqstream.py lines 130-145): the
three header refinements, applied in program order on the metadata
record. -/
def updateInfo (info : CachedFileInfo) (file_name_fallback : String)
    (headers : List (String × String)) : Option CachedFileInfo :=
  (updateInfoLength info headers).map fun info1 =>
    updateInfoType (updateInfoName info1 file_name_fallback headers) headers

/-- C7.  On a response carrying `Content-Length: 42`,
`Content-Disposition: attachment; filename=report.pdf` and
`Content-Type: application/pdf`, the refined metadata has `data_size = 42`,
`file_name = "report.pdf"`, and both `content_type` and `mime_type` equal to
`"application/pdf"`; and whenever no `filename=` token is present (the
header is absent or lacks the token) a non-empty fall-back name becomes the
`file_name`. -/
theorem claim_C7_header_refinement (info : CachedFileInfo) (fb : String)
    (headers2 : List (String × String)) (hfb : fb ≠ "")
    (hcd : storeLookup "Content-Disposition" headers2 = none ∨
      ∃ s, storeLookup "Content-Disposition" headers2 = some s ∧
        pyInStr "filename=" s = false) :
    updateInfo info fb
        [("Content-Length", "42"),
         ("Content-Disposition", "attachment; filename=report.pdf"),
         ("Content-Type", "application/pdf")]
      = some { info with
          data_size := 42
          file_name := "report.pdf"
          content_type := "application/pdf"
          mime_type := "application/pdf" } ∧
    (∀ info2, updateInfo info fb headers2 = some info2 → info2.file_name = fb) := by
  constructor
  · rfl
  · intro info2 h
    obtain ⟨info1, -, hmap⟩ := Option.map_eq_some'.mp h
    have hname : (updateInfoName info1 fb headers2).file_name = fb := by
      rcases hcd with hcd | ⟨s, hcd, hfn⟩
      · simp [updateInfoName, hcd, hfb]
      · simp [updateInfoName, hcd, hfn, hfb]
    have htype : ∀ i : CachedFileInfo,
        (updateInfoType i headers2).file_name = i.file_name := by
      intro i
      rw [updateInfoType]
      cases storeLookup "Content-Type" headers2 <;> rfl
    rw [← hmap, htype, hname]

/-- A starting metadata record as built by `register_request`
(data.py lines 162-169). -/
def infoC7 : CachedFileInfo :=
  { type := .request, data_size := 0, file_name := "Unknown",
    content_type := "", mime_type := "application/octet-stream",
    one_time_service := false }

theorem claim_C7_witness :
    updateInfo infoC7 "fallback.bin"
        [("Content-Length", "42"),
         ("Content-Disposition", "attachment; filename=report.pdf"),
         ("Content-Type", "application/pdf")]
      = some { infoC7 with
          data_size := 42
          file_name := "report.pdf"
          content_type := "application/pdf"
          mime_type := "application/pdf" } ∧
    (∀ info2, updateInfo infoC7 "fallback.bin" [("Content-Length", "7")] = some info2 →
      info2.file_name = "fallback.bin") :=
  claim_C7_header_refinement infoC7 "fallback.bin" [("Content-Length", "7")]
    (by decide) (Or.inl rfl)

end DashCache
